import Mathlib

/-!
AudioRingBuffer: a shallow embedding of `proxyAudioDevice/AudioRingBuffer.h`.

The header declares the class, its seven fields and one inline method,
`FrameOffset`.  The fields and `FrameOffset` are embedded from the header.
`UInt32` values are natural numbers reduced modulo `2^32` wherever the C++
arithmetic is carried out in 32 bits, `SInt64` frame numbers are integers, and
the conversion `UInt32(x)` of a 64-bit signed value is reduction modulo `2^32`.
The bodies of `Allocate`, `Clear`, `Store` and `Fetch` are not part of the
header; they are modelled from the specification and marked as such.
-/

namespace AudioRingBuffer

/-- One byte of audio data (`Byte` in the header). -/
abbrev Byte := Nat

/-- Number of values of a `UInt32`. -/
def UInt32Size : Nat := 4294967296

/-- The C++ conversion `UInt32(x)` of a signed 64-bit value: reduction modulo `2^32`. -/
def toUInt32 (x : Int) : Nat := (x % 4294967296).toNat

end AudioRingBuffer

/-- The fields of `class AudioRingBuffer`.  `mBuffer` is the memory the `Byte *` points to,
addressed by byte offset. -/
structure AudioRingBuffer where
  mBytesPerFrame : Nat
  mCapacityFrames : Nat
  mCapacityBytes : Nat
  mBuffer : Nat → AudioRingBuffer.Byte
  mStartOffset : Nat
  mStartFrame : Int
  mEndFrame : Int

namespace AudioRingBuffer

/-- `UInt32 FrameOffset(SInt64 frameNumber)`:
`(mStartOffset + UInt32(frameNumber - mStartFrame) * mBytesPerFrame) % mCapacityBytes`,
the product and the sum taken in 32-bit unsigned arithmetic.  The result is `none` when
the modulus is taken with divisor zero. -/
def FrameOffset (s : AudioRingBuffer) (frameNumber : Int) : Option Nat :=
  if s.mCapacityBytes = 0 then none
  else
    some (((s.mStartOffset
        + (toUInt32 (frameNumber - s.mStartFrame) * s.mBytesPerFrame) % UInt32Size) % UInt32Size)
      % s.mCapacityBytes)

/-- The data-model invariants of a buffer state: every `UInt32` field is a 32-bit value,
`bytesPerFrame > 0`, `capacityFrames > 0`, `capacityBytes` is the product
`capacityFrames * bytesPerFrame` as a 32-bit value, `startOffset < capacityBytes`,
`startFrame ≤ endFrame` and `endFrame - startFrame ≤ capacityFrames`. -/
def Invariant (s : AudioRingBuffer) : Prop :=
  s.mBytesPerFrame < UInt32Size ∧ s.mCapacityFrames < UInt32Size
  ∧ s.mStartOffset < UInt32Size
  ∧ 0 < s.mBytesPerFrame ∧ 0 < s.mCapacityFrames
  ∧ s.mCapacityBytes = (s.mCapacityFrames * s.mBytesPerFrame) % UInt32Size
  ∧ s.mStartOffset < s.mCapacityBytes
  ∧ s.mStartFrame ≤ s.mEndFrame
  ∧ s.mEndFrame - s.mStartFrame ≤ (s.mCapacityFrames : Int)

instance (s : AudioRingBuffer) : Decidable (Invariant s) := by
  unfold Invariant; infer_instance

/-- The window part of the data-model invariants: `startOffset < capacityBytes`,
`endFrame ≥ startFrame` and `endFrame - startFrame ≤ capacityFrames`. -/
def WindowInvariant (s : AudioRingBuffer) : Prop :=
  s.mStartOffset < s.mCapacityBytes
  ∧ s.mEndFrame ≥ s.mStartFrame
  ∧ s.mEndFrame - s.mStartFrame ≤ (s.mCapacityFrames : Int)

instance (s : AudioRingBuffer) : Decidable (WindowInvariant s) := by
  unfold WindowInvariant; infer_instance

/-- The C `memcpy(buf + dst, src, src.length)`: the bytes of `src` placed in the backing
store from byte offset `dst` on. -/
def writeBytes (buf : Nat → Byte) (dst : Nat) (src : List Byte) : Nat → Byte :=
  fun i => if dst ≤ i ∧ i < dst + src.length then src.getD (i - dst) 0 else buf i

/-- The C `memcpy(out, buf + src, n)`: the `n` bytes of the backing store from byte offset
`src` on. -/
def readBytes (buf : Nat → Byte) (src n : Nat) : List Byte :=
  (List.range n).map fun i => buf (src + i)

/-- The write of `Store`: `bytes` placed from byte `offset` on; a write that spans the
physical end of the array is split into two contiguous copies, the second one at the
start of the array. -/
def writeWrapped (buf : Nat → Byte) (capacityBytes offset : Nat) (bytes : List Byte) :
    Nat → Byte :=
  if offset + bytes.length ≤ capacityBytes then writeBytes buf offset bytes
  else
    writeBytes (writeBytes buf offset (bytes.take (capacityBytes - offset)))
      0 (bytes.drop (capacityBytes - offset))

/-- The read of `Fetch`: `nBytes` bytes from byte `offset` on, split at the physical end of
the array exactly as the write is. -/
def readWrapped (buf : Nat → Byte) (capacityBytes offset nBytes : Nat) : List Byte :=
  if offset + nBytes ≤ capacityBytes then readBytes buf offset nBytes
  else
    readBytes buf offset (capacityBytes - offset)
      ++ readBytes buf 0 (nBytes - (capacityBytes - offset))

/-- Modelled from the spec: the body of `Clear` is not in the header.  It resets the
resident window to empty (`startFrame = endFrame = 0`, `startOffset = 0`) without
reallocating. -/
def Clear (s : AudioRingBuffer) : AudioRingBuffer :=
  { s with mStartOffset := 0, mStartFrame := 0, mEndFrame := 0 }

/-- Modelled from the spec: the body of `Allocate` is not in the header.  It fails when
`bytesPerFrame = 0` or `capacityFrames = 0`; otherwise it sizes the backing store to
`capacityFrames * bytesPerFrame` bytes, the product being stored in the `UInt32` field
`mCapacityBytes`, and resets the window to empty.  `mem` is the content of the newly
allocated memory. -/
def Allocate (s : AudioRingBuffer) (mem : Nat → Byte) (bytesPerFrame capacityFrames : Nat) :
    Option AudioRingBuffer :=
  if bytesPerFrame = 0 ∨ capacityFrames = 0 then none
  else
    some (Clear { s with
      mBytesPerFrame := bytesPerFrame
      mCapacityFrames := capacityFrames
      mCapacityBytes := (capacityFrames * bytesPerFrame) % UInt32Size
      mBuffer := mem })

/-- Modelled from the spec: the discontinuity step of `Store`, whose body is not in the
header.  A `frameNumber` that continues the window (`frameNumber = endFrame`) leaves the
window as it is; any other `frameNumber` is a discontinuity, the new data is authoritative
and the window restarts, empty, at `frameNumber`. -/
def resync (s : AudioRingBuffer) (frameNumber : Int) : AudioRingBuffer :=
  if frameNumber = s.mEndFrame then s
  else { s with mStartFrame := frameNumber, mEndFrame := frameNumber }

/-- Modelled from the spec: the body of `Store` is not in the header.
* It fails, leaving the state as it is, when `nFrames` exceeds `capacityFrames`; a
  zero-length Store is taken as a failure without effect (the spec allows failure or
  success without effect).
* A `frameNumber` other than the continuation point `endFrame` is a discontinuity: the
  window restarts at `frameNumber`, the history is dropped (`resync`).
* The frames are written from `FrameOffset frameNumber` on, the copy being split in two
  when it spans the physical end of the array.
* After writing, `endFrame = frameNumber + nFrames`; when the window is then longer than
  `capacityFrames`, `startFrame` advances until the length is `capacityFrames` and
  `startOffset` becomes the offset of the new `startFrame`.
The result is `none` when `FrameOffset` divides by zero. -/
def Store (s : AudioRingBuffer) (data : List Byte) (nFrames : Nat) (frameNumber : Int) :
    Option (Bool × AudioRingBuffer) :=
  if nFrames > s.mCapacityFrames then some (false, s)
  else if nFrames = 0 then some (false, s)
  else
    let w := resync s frameNumber
    match FrameOffset w frameNumber with
    | none => none
    | some offset =>
      let bytes := data.take (nFrames * w.mBytesPerFrame)
      let buf := writeWrapped w.mBuffer w.mCapacityBytes offset bytes
      let endFrame := frameNumber + nFrames
      if endFrame - w.mStartFrame > w.mCapacityFrames then
        let newStart := endFrame - w.mCapacityFrames
        match FrameOffset w newStart with
        | none => none
        | some newOffset =>
          some (true, { w with
            mBuffer := buf
            mStartOffset := newOffset
            mStartFrame := newStart
            mEndFrame := endFrame })
      else some (true, { w with mBuffer := buf, mEndFrame := endFrame })

/-- Modelled from the spec: the body of `Fetch` is not in the header.  It succeeds exactly
when the requested range is resident, `frameNumber ≥ startFrame` and
`frameNumber + nFrames ≤ endFrame`; it then copies the frames from `FrameOffset frameNumber`
on into the first `nFrames * bytesPerFrame` bytes of `data`, the copy being split in two at
the physical end of the array.  Otherwise it returns `false` and leaves `data` as it is.
The state is returned as it was.  The result is `none` when `FrameOffset` divides by
zero. -/
def Fetch (s : AudioRingBuffer) (data : List Byte) (nFrames : Nat) (frameNumber : Int) :
    Option (Bool × List Byte × AudioRingBuffer) :=
  if frameNumber ≥ s.mStartFrame ∧ frameNumber + nFrames ≤ s.mEndFrame then
    match FrameOffset s frameNumber with
    | none => none
    | some offset =>
      let nBytes := nFrames * s.mBytesPerFrame
      let bytes := readWrapped s.mBuffer s.mCapacityBytes offset nBytes
      some (true, bytes ++ data.drop nBytes, s)
  else some (false, data, s)

/-- One call on the buffer after its allocation. -/
inductive Call where
  | clear
  | store (data : List Byte) (nFrames : Nat) (frameNumber : Int)
  | fetch (data : List Byte) (nFrames : Nat) (frameNumber : Int)

/-- The state after one call; `none` when the call divides by zero. -/
def step (s : AudioRingBuffer) : Call → Option AudioRingBuffer
  | .clear => some (Clear s)
  | .store data nFrames frameNumber => (Store s data nFrames frameNumber).map fun r => r.2
  | .fetch data nFrames frameNumber => (Fetch s data nFrames frameNumber).map fun r => r.2.2

/-- The state after a sequence of calls. -/
def run (s : AudioRingBuffer) : List Call → Option AudioRingBuffer
  | [] => some s
  | c :: cs => (step s c).bind fun t => run t cs

end AudioRingBuffer

namespace AudioRingBuffer

/-! ## Example states -/

/-- A full window on a buffer of `3 * 2^30` one-byte frames whose start sits on the last
byte of the array. -/
def wideState : AudioRingBuffer where
  mBytesPerFrame := 1
  mCapacityFrames := 3221225472
  mCapacityBytes := 3221225472
  mBuffer := fun _ => 0
  mStartOffset := 3221225471
  mStartFrame := 0
  mEndFrame := 3221225472

/-- An empty window at frame 1 on a buffer of three one-byte frames. -/
def threeState : AudioRingBuffer where
  mBytesPerFrame := 1
  mCapacityFrames := 3
  mCapacityBytes := 3
  mBuffer := fun _ => 0
  mStartOffset := 0
  mStartFrame := 1
  mEndFrame := 1

/-- A full window `[4, 8)` on a buffer of four two-byte frames, starting at byte 2. -/
def fourState : AudioRingBuffer where
  mBytesPerFrame := 2
  mCapacityFrames := 4
  mCapacityBytes := 8
  mBuffer := fun i => 10 + i
  mStartOffset := 2
  mStartFrame := 4
  mEndFrame := 8

/-- A window `[7, 10)` on a buffer of four two-byte frames, starting at byte 4. -/
def tenState : AudioRingBuffer where
  mBytesPerFrame := 2
  mCapacityFrames := 4
  mCapacityBytes := 8
  mBuffer := fun i => 10 + i
  mStartOffset := 4
  mStartFrame := 7
  mEndFrame := 10

/-! ## Address arithmetic -/

theorem toUInt32_of_nonneg {x : Int} (h0 : 0 ≤ x) (h : x < 4294967296) :
    toUInt32 x = x.toNat := by
  unfold toUInt32
  rw [Int.emod_eq_of_lt h0 h]

theorem toUInt32_cast (x : Int) : ((toUInt32 x : Nat) : Int) = x % 4294967296 := by
  unfold toUInt32
  exact Int.toNat_of_nonneg (Int.emod_nonneg _ (by decide))

/-- The 32-bit arithmetic of `FrameOffset` computes the residue modulo `2^32` of the
signed integer `startOffset + (f - startFrame) * bytesPerFrame`, then reduces it modulo
`capacityBytes`. -/
theorem FrameOffset_eq_emod (s : AudioRingBuffer) (f : Int) (hc : s.mCapacityBytes ≠ 0) :
    FrameOffset s f
      = some ((((s.mStartOffset : Int) + (f - s.mStartFrame) * s.mBytesPerFrame)
          % 4294967296).toNat % s.mCapacityBytes) := by
  unfold FrameOffset
  rw [if_neg hc]
  congr 2
  apply Int.ofNat_inj.mp
  rw [Int.toNat_of_nonneg (Int.emod_nonneg _ (by decide))]
  simp only [UInt32Size]
  push_cast
  rw [toUInt32_cast, Int.add_emod_emod, Int.add_emod, Int.mul_emod ((f - s.mStartFrame) % 4294967296),
    Int.emod_emod, ← Int.mul_emod, ← Int.add_emod]

/-! ## Copies in and out of the backing store -/

theorem length_readBytes (buf : Nat → Byte) (src n : Nat) : (readBytes buf src n).length = n := by
  simp [readBytes]

theorem getElem_readBytes (buf : Nat → Byte) (src n i : Nat) (h : i < (readBytes buf src n).length) :
    (readBytes buf src n)[i] = buf (src + i) := by
  simp [readBytes]

theorem readBytes_congr (f g : Nat → Byte) (src n : Nat)
    (h : ∀ i, i < n → f (src + i) = g (src + i)) : readBytes f src n = readBytes g src n := by
  apply List.ext_getElem
  · simp [length_readBytes]
  · intro i h1 h2
    rw [getElem_readBytes, getElem_readBytes]
    exact h i (by simpa [length_readBytes] using h1)

theorem readBytes_writeBytes_same (buf : Nat → Byte) (dst : Nat) (src : List Byte) :
    readBytes (writeBytes buf dst src) dst src.length = src := by
  apply List.ext_getElem
  · simp [length_readBytes]
  · intro i h1 h2
    rw [getElem_readBytes]
    unfold writeBytes
    rw [if_pos ⟨by omega, by omega⟩]
    simp [List.getD_eq_getElem?_getD, h2]

theorem readBytes_writeBytes_apart (buf : Nat → Byte) (dst : Nat) (src : List Byte) (pos n : Nat)
    (h : dst + src.length ≤ pos ∨ pos + n ≤ dst) :
    readBytes (writeBytes buf dst src) pos n = readBytes buf pos n := by
  apply readBytes_congr
  intro i hi
  unfold writeBytes
  rw [if_neg (by omega)]

/-- What a wrapped write puts in the array, a wrapped read of the same length at the same
offset returns. -/
theorem readWrapped_writeWrapped (buf : Nat → Byte) (cap off : Nat) (bytes : List Byte)
    (hoff : off < cap) (hlen : bytes.length ≤ cap) :
    readWrapped (writeWrapped buf cap off bytes) cap off bytes.length = bytes := by
  unfold readWrapped writeWrapped
  by_cases h : off + bytes.length ≤ cap
  · rw [if_pos h, if_pos h]
    exact readBytes_writeBytes_same buf off bytes
  · rw [if_neg h, if_neg h]
    have hA : (bytes.take (cap - off)).length = cap - off := by
      rw [List.length_take]; omega
    have hB : (bytes.drop (cap - off)).length = bytes.length - (cap - off) := by
      rw [List.length_drop]
    conv_rhs => rw [← List.take_append_drop (cap - off) bytes]
    congr 1
    · rw [readBytes_writeBytes_apart _ _ _ _ _ (by omega)]
      have := readBytes_writeBytes_same buf off (bytes.take (cap - off))
      rw [hA] at this
      exact this
    · have := readBytes_writeBytes_same (writeBytes buf off (bytes.take (cap - off))) 0
        (bytes.drop (cap - off))
      rw [hB] at this
      exact this

/-- When the sum `startOffset + (f - startFrame) * bytesPerFrame` of a frame at or above
`startFrame` fits in 32 bits, `FrameOffset` is its remainder modulo `capacityBytes`. -/
theorem FrameOffset_of_fit (s : AudioRingBuffer) (f : Int) (hc : s.mCapacityBytes ≠ 0)
    (hlo : s.mStartFrame ≤ f)
    (hfit : s.mStartOffset + (f - s.mStartFrame).toNat * s.mBytesPerFrame < 4294967296) :
    FrameOffset s f
      = some ((s.mStartOffset + (f - s.mStartFrame).toNat * s.mBytesPerFrame)
          % s.mCapacityBytes) := by
  have hd0 : 0 ≤ f - s.mStartFrame := by omega
  have hdn : ((f - s.mStartFrame).toNat : Int) = f - s.mStartFrame := Int.toNat_of_nonneg hd0
  rw [FrameOffset_eq_emod s f hc]
  congr 2
  apply Int.ofNat_inj.mp
  rw [Int.toNat_of_nonneg (Int.emod_nonneg _ (by decide)), ← hdn]
  have hx : ((s.mStartOffset : Int) + ((f - s.mStartFrame).toNat : Int) * (s.mBytesPerFrame : Int))
      = ((s.mStartOffset + (f - s.mStartFrame).toNat * s.mBytesPerFrame : Nat) : Int) := by
    push_cast; rfl
  rw [hx]
  exact Int.emod_eq_of_lt (Int.ofNat_nonneg _) (by exact_mod_cast hfit)

/-- Under the data-model invariants the capacity is not zero. -/
theorem Invariant.capacityBytes_ne_zero {s : AudioRingBuffer} (h : Invariant s) :
    s.mCapacityBytes ≠ 0 := by
  obtain ⟨_, _, _, _, _, _, hso, _, _⟩ := h
  omega

/-- Under the data-model invariants, a capacity of at most `2^31` bytes is the exact
product `capacityFrames * bytesPerFrame`. -/
theorem Invariant.capacityBytes_eq {s : AudioRingBuffer} (h : Invariant s)
    (hcap : s.mCapacityFrames * s.mBytesPerFrame ≤ 2147483648) :
    s.mCapacityBytes = s.mCapacityFrames * s.mBytesPerFrame := by
  obtain ⟨_, _, _, _, _, hcb, _, _, _⟩ := h
  rw [hcb]
  exact Nat.mod_eq_of_lt (by simp only [UInt32Size]; omega)

/-! ## The result of Store -/

theorem resync_fields (s : AudioRingBuffer) (F : Int) :
    (resync s F).mBytesPerFrame = s.mBytesPerFrame
    ∧ (resync s F).mCapacityFrames = s.mCapacityFrames
    ∧ (resync s F).mCapacityBytes = s.mCapacityBytes
    ∧ (resync s F).mBuffer = s.mBuffer
    ∧ (resync s F).mStartOffset = s.mStartOffset := by
  unfold resync
  split <;> simp

theorem resync_window (s : AudioRingBuffer) (F : Int) :
    (F = s.mEndFrame ∧ (resync s F).mStartFrame = s.mStartFrame ∧ (resync s F).mEndFrame = F)
    ∨ (F ≠ s.mEndFrame ∧ (resync s F).mStartFrame = F ∧ (resync s F).mEndFrame = F) := by
  unfold resync
  by_cases h : F = s.mEndFrame
  · left; simp [h]
  · right; simp [h]

/-- A Store of more frames than the capacity, or of no frame, is rejected. -/
theorem Store_reject (s : AudioRingBuffer) (data : List Byte) (n : Nat) (F : Int)
    (h : n > s.mCapacityFrames ∨ n = 0) : Store s data n F = some (false, s) := by
  unfold Store
  by_cases hbig : n > s.mCapacityFrames
  · rw [if_pos hbig]
  · rw [if_neg hbig, if_pos (by omega)]

/-- A Store that does not push the window past the capacity. -/
theorem Store_keep (s : AudioRingBuffer) (data : List Byte) (n : Nat) (F : Int) (off : Nat)
    (hn : 0 < n) (hcf : n ≤ s.mCapacityFrames)
    (hoff : FrameOffset (resync s F) F = some off)
    (hkeep : F + n - (resync s F).mStartFrame ≤ s.mCapacityFrames) :
    Store s data n F = some (true, { resync s F with
      mBuffer := writeWrapped s.mBuffer s.mCapacityBytes off (data.take (n * s.mBytesPerFrame))
      mEndFrame := F + n }) := by
  obtain ⟨h1, h2, h3, h4, h5⟩ := resync_fields s F
  unfold Store
  rw [if_neg (by omega), if_neg (by omega)]
  simp only [hoff, h1, h2, h3, h4]
  rw [if_neg (by omega)]

/-- A Store that pushes the window past the capacity: the start advances. -/
theorem Store_evict (s : AudioRingBuffer) (data : List Byte) (n : Nat) (F : Int)
    (off newOff : Nat) (hn : 0 < n) (hcf : n ≤ s.mCapacityFrames)
    (hoff : FrameOffset (resync s F) F = some off)
    (hnew : FrameOffset (resync s F) (F + n - s.mCapacityFrames) = some newOff)
    (hover : (s.mCapacityFrames : Int) < F + n - (resync s F).mStartFrame) :
    Store s data n F = some (true, { resync s F with
      mBuffer := writeWrapped s.mBuffer s.mCapacityBytes off (data.take (n * s.mBytesPerFrame))
      mStartOffset := newOff
      mStartFrame := F + n - s.mCapacityFrames
      mEndFrame := F + n }) := by
  obtain ⟨h1, h2, h3, h4, h5⟩ := resync_fields s F
  unfold Store
  rw [if_neg (by omega), if_neg (by omega)]
  simp only [hoff, h1, h2, h3, h4]
  rw [if_pos (by omega)]
  simp only [hnew]

/-- A Fetch of a resident range. -/
theorem Fetch_resident (s : AudioRingBuffer) (data : List Byte) (n : Nat) (F : Int) (off : Nat)
    (hlo : s.mStartFrame ≤ F) (hhi : F + n ≤ s.mEndFrame) (hoff : FrameOffset s F = some off) :
    Fetch s data n F
      = some (true, readWrapped s.mBuffer s.mCapacityBytes off (n * s.mBytesPerFrame)
          ++ data.drop (n * s.mBytesPerFrame), s) := by
  unfold Fetch
  rw [if_pos ⟨hlo, hhi⟩]
  simp only [hoff]

/-- A Fetch of a range that is not resident. -/
theorem Fetch_absent (s : AudioRingBuffer) (data : List Byte) (n : Nat) (F : Int)
    (h : F < s.mStartFrame ∨ s.mEndFrame < F + n) :
    Fetch s data n F = some (false, data, s) := by
  unfold Fetch
  rw [if_neg (by omega)]

/-- With a capacity other than zero, Fetch returns, and returns the state as it was. -/
theorem Fetch_returns (s : AudioRingBuffer) (data : List Byte) (n : Nat) (F : Int)
    (hc : s.mCapacityBytes ≠ 0) : ∃ ok out, Fetch s data n F = some (ok, out, s) := by
  by_cases hres : s.mStartFrame ≤ F ∧ F + n ≤ s.mEndFrame
  · exact ⟨_, _, Fetch_resident s data n F _ hres.1 hres.2 (FrameOffset_eq_emod s F hc)⟩
  · exact ⟨_, _, Fetch_absent s data n F (by omega)⟩

/-! ## C1: frames inside the window -/

/-- C1, as stated, fails: `wideState` satisfies the data-model invariants, its capacity
`3 * 2^30` fits in 32 bits, frame `3221225471` lies in its window, yet `FrameOffset`
returns `2147483646` where the formula over the unbounded integers gives `3221225470`:
the 32-bit sum `startOffset + (f - startFrame) * bytesPerFrame` has wrapped. -/
theorem FrameOffset_in_window_wraps :
    Invariant wideState
    ∧ wideState.mCapacityFrames * wideState.mBytesPerFrame < 4294967296
    ∧ wideState.mStartFrame ≤ 3221225471 ∧ (3221225471 : Int) < wideState.mEndFrame
    ∧ FrameOffset wideState 3221225471 = some 2147483646
    ∧ (wideState.mStartOffset
        + ((3221225471 : Int) - wideState.mStartFrame).toNat * wideState.mBytesPerFrame)
        % wideState.mCapacityBytes = 3221225470
    ∧ FrameOffset wideState 3221225471
      ≠ some ((wideState.mStartOffset
          + ((3221225471 : Int) - wideState.mStartFrame).toNat * wideState.mBytesPerFrame)
          % wideState.mCapacityBytes) := by
  decide

/-- C1, amended: for a state satisfying the data-model invariants and a frame `f` of the
window `[startFrame, endFrame)` such that `startOffset + (f - startFrame) * bytesPerFrame`
is below `2^32` (which holds whenever `capacityFrames * bytesPerFrame ≤ 2^31`),
`FrameOffset f` is `(startOffset + (f - startFrame) * bytesPerFrame) mod capacityBytes`
computed over the unbounded integers. -/
theorem FrameOffset_in_window (s : AudioRingBuffer) (f : Int) (hinv : Invariant s)
    (hlo : s.mStartFrame ≤ f) (hhi : f < s.mEndFrame)
    (hfit : s.mCapacityFrames * s.mBytesPerFrame ≤ 2147483648
      ∨ s.mStartOffset + (f - s.mStartFrame).toNat * s.mBytesPerFrame < 4294967296) :
    FrameOffset s f
      = some ((s.mStartOffset + (f - s.mStartFrame).toNat * s.mBytesPerFrame)
          % s.mCapacityBytes) := by
  have hc0 := hinv.capacityBytes_ne_zero
  refine FrameOffset_of_fit s f hc0 hlo ?_
  rcases hfit with h | h
  · have hce := hinv.capacityBytes_eq h
    obtain ⟨_, _, _, _, _, _, hso, _, hlen⟩ := hinv
    have hdle : (f - s.mStartFrame).toNat ≤ s.mCapacityFrames := by omega
    have hmul := Nat.mul_le_mul_right s.mBytesPerFrame hdle
    omega
  · exact h

/-- Witness of `FrameOffset_in_window`: frame 5 of `fourState` sits at byte 4. -/
theorem FrameOffset_in_window_witness :
    Invariant fourState ∧ FrameOffset fourState 5 = some 4 :=
  ⟨by decide,
    FrameOffset_in_window fourState 5 (by decide) (by decide) (by decide) (by decide)⟩

/-! ## C2: frames below the window -/

/-- C2, as stated, fails: `threeState` satisfies the data-model invariants, its capacity
is 3 bytes, frame 0 lies one frame below its window, and `FrameOffset` returns `0` where
the non-negative remainder of the signed integer `0 + (0 - 1) * 1` modulo 3 is `2`: the
difference is cast to an unsigned 32-bit value before the modulus. -/
theorem FrameOffset_below_window_unsigned :
    Invariant threeState
    ∧ threeState.mStartFrame - (threeState.mCapacityFrames : Int) ≤ 0
    ∧ (0 : Int) < threeState.mStartFrame
    ∧ FrameOffset threeState 0 = some 0
    ∧ (((threeState.mStartOffset : Int)
        + (0 - threeState.mStartFrame) * (threeState.mBytesPerFrame : Int))
        % (threeState.mCapacityBytes : Int)).toNat = 2 := by
  decide

/-- C2, amended: `FrameOffset` takes `f - startFrame` as an unsigned 32-bit quantity.  For a
state satisfying the data-model invariants and a frame `f` with
`startFrame - capacityFrames ≤ f < startFrame`, `FrameOffset f` is
`((startOffset + (2^32 + (f - startFrame)) * bytesPerFrame) mod 2^32) mod capacityBytes`;
when `capacityBytes` divides `2^32` this is the non-negative remainder of the signed
integer `startOffset + (f - startFrame) * bytesPerFrame` modulo `capacityBytes`. -/
theorem FrameOffset_below_window (s : AudioRingBuffer) (f : Int) (hinv : Invariant s)
    (hlo : s.mStartFrame - (s.mCapacityFrames : Int) ≤ f) (hhi : f < s.mStartFrame) :
    FrameOffset s f
      = some ((s.mStartOffset + (4294967296 + (f - s.mStartFrame)).toNat * s.mBytesPerFrame)
          % 4294967296 % s.mCapacityBytes)
    ∧ (s.mCapacityBytes ∣ 4294967296 →
        FrameOffset s f
          = some ((((s.mStartOffset : Int) + (f - s.mStartFrame) * (s.mBytesPerFrame : Int))
              % (s.mCapacityBytes : Int)).toNat)) := by
  obtain ⟨_, hcf, _, _, _, _, hso, _, _⟩ := hinv
  simp only [UInt32Size] at *
  have hc0 : s.mCapacityBytes ≠ 0 := by omega
  have hu0 : 0 ≤ 4294967296 + (f - s.mStartFrame) := by omega
  refine ⟨?_, fun hdvd => ?_⟩
  · rw [FrameOffset_eq_emod s f hc0]
    congr 2
    apply Int.ofNat_inj.mp
    rw [Int.toNat_of_nonneg (Int.emod_nonneg _ (by decide))]
    push_cast
    rw [Int.toNat_of_nonneg hu0]
    have hx : (s.mStartOffset : Int) + (4294967296 + (f - s.mStartFrame)) * (s.mBytesPerFrame : Int)
        = (s.mStartOffset : Int) + (f - s.mStartFrame) * (s.mBytesPerFrame : Int)
          + 4294967296 * (s.mBytesPerFrame : Int) := by ring
    rw [hx, Int.add_mul_emod_self_left]
  · rw [FrameOffset_eq_emod s f hc0]
    congr 1
    apply Int.ofNat_inj.mp
    have hcpos : (0 : Int) < (s.mCapacityBytes : Int) := by omega
    rw [Int.toNat_of_nonneg (Int.emod_nonneg _ (by omega))]
    push_cast
    rw [Int.toNat_of_nonneg (Int.emod_nonneg _ (by decide))]
    exact Int.emod_emod_of_dvd _ (by exact_mod_cast hdvd)

/-- Witness of `FrameOffset_below_window`: frame 2 of `fourState`, two frames below its
window, sits at byte 6 of the 8-byte array. -/
theorem FrameOffset_below_window_witness :
    Invariant fourState ∧ fourState.mCapacityBytes ∣ 4294967296
    ∧ FrameOffset fourState 2 = some 6 :=
  ⟨by decide, by decide,
    (FrameOffset_below_window fourState 2 (by decide) (by decide) (by decide)).2 (by decide)⟩

/-! ## C3: round trip -/

/-- C3, as stated, fails: `wideState` satisfies the data-model invariants; a Store of one
frame holding the byte `1` at frame `3221225472`, its continuation point, succeeds, and
the Fetch of that frame succeeds as well but returns the byte `0`.  The byte was written
at the offset `FrameOffset` gave before the start advanced (`2147483647`, after a 32-bit
wrap) and is read at the offset it gives afterwards (`3221225471`). -/
theorem Store_Fetch_round_trip_wraps :
    Invariant wideState
    ∧ 0 < 1 ∧ 1 ≤ wideState.mCapacityFrames
    ∧ ((Store wideState [1] 1 3221225472).bind fun r =>
        (Fetch r.2 [0] 1 3221225472).map fun q => (r.1, q.1, q.2.1))
      = some (true, true, [0]) := by
  decide

/-- C3, amended: for every state satisfying the data-model invariants with
`capacityFrames * bytesPerFrame ≤ 2^31`, every frame number `F`, every `nFrames` with
`0 < nFrames ≤ capacityFrames` and every `data` of `nFrames * bytesPerFrame` bytes,
`Store data nFrames F` succeeds and, no other Store intervening, `Fetch out nFrames F`
succeeds and fills the first `nFrames * bytesPerFrame` bytes of `out` with `data`. -/
theorem Store_Fetch_round_trip (s : AudioRingBuffer) (data out : List Byte) (n : Nat) (F : Int)
    (hinv : Invariant s) (hcap : s.mCapacityFrames * s.mBytesPerFrame ≤ 2147483648)
    (hn : 0 < n) (hcf : n ≤ s.mCapacityFrames) (hdata : data.length = n * s.mBytesPerFrame) :
    ∃ t, Store s data n F = some (true, t)
      ∧ Fetch t out n F = some (true, data ++ out.drop (n * s.mBytesPerFrame), t) := by
  have hc0 := hinv.capacityBytes_ne_zero
  have hce := hinv.capacityBytes_eq hcap
  obtain ⟨_, _, _, hb, _, _, hso, hse, hlen⟩ := hinv
  obtain ⟨h1, h2, h3, h4, h5⟩ := resync_fields s F
  have hw : (resync s F).mStartFrame ≤ F ∧ F - (resync s F).mStartFrame ≤ s.mCapacityFrames := by
    rcases resync_window s F with ⟨e, e1, _⟩ | ⟨_, e1, _⟩ <;> omega
  obtain ⟨hw1, hw2⟩ := hw
  generalize hW : (resync s F).mStartFrame = W at *
  have hd : (F - W).toNat ≤ s.mCapacityFrames := by omega
  have hdm := Nat.mul_le_mul_right s.mBytesPerFrame hd
  have hnm := Nat.mul_le_mul_right s.mBytesPerFrame hcf
  have hoff : FrameOffset (resync s F) F
      = some ((s.mStartOffset + (F - W).toNat * s.mBytesPerFrame) % s.mCapacityBytes) := by
    have := FrameOffset_of_fit (resync s F) F (by rw [h3]; exact hc0) (by omega)
      (by rw [h5, h1, hW]; omega)
    rw [this, h5, h1, h3, hW]
  have hoffLt : (s.mStartOffset + (F - W).toNat * s.mBytesPerFrame) % s.mCapacityBytes
      < s.mCapacityBytes := Nat.mod_lt _ (by omega)
  have hread : readWrapped (writeWrapped s.mBuffer s.mCapacityBytes
        ((s.mStartOffset + (F - W).toNat * s.mBytesPerFrame) % s.mCapacityBytes)
        (data.take (n * s.mBytesPerFrame))) s.mCapacityBytes
        ((s.mStartOffset + (F - W).toNat * s.mBytesPerFrame) % s.mCapacityBytes)
        (n * s.mBytesPerFrame) = data := by
    rw [← hdata, List.take_length]
    exact readWrapped_writeWrapped _ _ _ _ hoffLt (by omega)
  by_cases hover : (s.mCapacityFrames : Int) < F + n - W
  · have hnew : FrameOffset (resync s F) (F + n - s.mCapacityFrames)
        = some ((s.mStartOffset + (F + n - s.mCapacityFrames - W).toNat * s.mBytesPerFrame)
            % s.mCapacityBytes) := by
      have hd1 : (F + n - s.mCapacityFrames - W).toNat ≤ s.mCapacityFrames := by omega
      have hd1m := Nat.mul_le_mul_right s.mBytesPerFrame hd1
      have := FrameOffset_of_fit (resync s F) (F + n - s.mCapacityFrames)
        (by rw [h3]; exact hc0) (by omega) (by rw [h5, h1, hW]; omega)
      rw [this, h5, h1, h3, hW]
    refine ⟨_, Store_evict s data n F _ _ hn hcf hoff hnew (by omega), ?_⟩
    rw [Fetch_resident _ out n F
      ((s.mStartOffset + (F - W).toNat * s.mBytesPerFrame) % s.mCapacityBytes)
      (by simp only; omega) (by simp only; omega) ?_]
    · simp only [h1, h3, hread]
    · have hd2 : (F - (F + n - s.mCapacityFrames)).toNat ≤ s.mCapacityFrames := by omega
      have hd2m := Nat.mul_le_mul_right s.mBytesPerFrame hd2
      have hlt : (s.mStartOffset + (F + n - s.mCapacityFrames - W).toNat * s.mBytesPerFrame)
          % s.mCapacityBytes < s.mCapacityBytes := Nat.mod_lt _ (by omega)
      rw [FrameOffset_of_fit _ F (by simp only [h3]; exact hc0) (by simp only; omega)
        (by simp only [h1]; omega)]
      simp only [h1, h3]
      rw [Nat.mod_add_mod, Nat.add_assoc, ← Nat.add_mul]
      have hsum : (F + n - s.mCapacityFrames - W).toNat + (F - (F + n - s.mCapacityFrames)).toNat
          = (F - W).toNat := by omega
      rw [hsum]
  · refine ⟨_, Store_keep s data n F _ hn hcf hoff (by omega), ?_⟩
    rw [Fetch_resident _ out n F
      ((s.mStartOffset + (F - W).toNat * s.mBytesPerFrame) % s.mCapacityBytes)
      (by simp only; omega) (by simp only; omega) ?_]
    · simp only [h1, h3, hread]
    · rw [← hoff]
      rfl

/-- Witness of `Store_Fetch_round_trip`: two frames stored at frame 8 of `fourState` and
fetched back. -/
theorem Store_Fetch_round_trip_witness :
    Invariant fourState ∧ fourState.mCapacityFrames * fourState.mBytesPerFrame ≤ 2147483648
    ∧ ∃ t, Store fourState [1, 2, 3, 4] 2 8 = some (true, t)
      ∧ Fetch t [0, 0, 0, 0] 2 8
        = some (true, [1, 2, 3, 4] ++ [0, 0, 0, 0].drop (2 * fourState.mBytesPerFrame), t) :=
  ⟨by decide, by decide,
    Store_Fetch_round_trip fourState [1, 2, 3, 4] [0, 0, 0, 0] 2 8 (by decide) (by decide)
      (by decide) (by decide) (by decide)⟩

/-! ## C4: Fetch succeeds exactly on resident ranges -/

/-- C4: in a state whose `capacityBytes` is not zero (as the data-model invariants
require), `Fetch data nFrames frameNumber` returns true if and only if
`frameNumber ≥ startFrame` and `frameNumber + nFrames ≤ endFrame`, and returns false
otherwise; for a non-empty window a 1-frame Fetch at `endFrame` fails and at
`endFrame - 1` succeeds, and a 1-frame Fetch at `startFrame - 1` fails and at `startFrame`
succeeds. -/
theorem Fetch_true_iff_resident (s : AudioRingBuffer) (data : List Byte) (n : Nat) (F : Int)
    (hc : s.mCapacityBytes ≠ 0) :
    ((Fetch s data n F).map Prod.fst = some true
        ↔ s.mStartFrame ≤ F ∧ F + n ≤ s.mEndFrame)
    ∧ ((Fetch s data n F).map Prod.fst = some false
        ↔ ¬ (s.mStartFrame ≤ F ∧ F + n ≤ s.mEndFrame))
    ∧ (s.mStartFrame < s.mEndFrame →
        (Fetch s data 1 s.mEndFrame).map Prod.fst = some false
        ∧ (Fetch s data 1 (s.mEndFrame - 1)).map Prod.fst = some true
        ∧ (Fetch s data 1 (s.mStartFrame - 1)).map Prod.fst = some false
        ∧ (Fetch s data 1 s.mStartFrame).map Prod.fst = some true) := by
  have key : ∀ (m : Nat) (G : Int),
      ((Fetch s data m G).map Prod.fst = some true ↔ s.mStartFrame ≤ G ∧ G + m ≤ s.mEndFrame)
      ∧ ((Fetch s data m G).map Prod.fst = some false
          ↔ ¬ (s.mStartFrame ≤ G ∧ G + m ≤ s.mEndFrame)) := by
    intro m G
    by_cases h : s.mStartFrame ≤ G ∧ G + m ≤ s.mEndFrame
    · rw [Fetch_resident s data m G _ h.1 h.2 (FrameOffset_eq_emod s G hc)]
      simp [h]
    · rw [Fetch_absent s data m G (by omega)]
      simp [h]
  refine ⟨(key n F).1, (key n F).2, fun hne => ⟨?_, ?_, ?_, ?_⟩⟩
  · exact (key 1 _).2.mpr (by push_cast; omega)
  · exact (key 1 _).1.mpr (by push_cast; omega)
  · exact (key 1 _).2.mpr (by push_cast; omega)
  · exact (key 1 _).1.mpr (by push_cast; omega)

/-- Witness of `Fetch_true_iff_resident`: on `fourState`, whose window is `[4, 8)`, a Fetch
of two frames at frame 6 returns true. -/
theorem Fetch_true_iff_resident_witness :
    fourState.mCapacityBytes ≠ 0 ∧ (Fetch fourState [0, 0, 0, 0] 2 6).map Prod.fst = some true :=
  ⟨by decide,
    (Fetch_true_iff_resident fourState [0, 0, 0, 0] 2 6 (by decide)).1.mpr (by decide)⟩

/-! ## C5: oversized Store -/

/-- C5: a Store of more than `capacityFrames` frames returns false and leaves the whole
state, the backing store included, as it was, for every state, data and frame number. -/
theorem Store_oversized (s : AudioRingBuffer) (data : List Byte) (n : Nat) (F : Int)
    (h : n > s.mCapacityFrames) : Store s data n F = some (false, s) :=
  Store_reject s data n F (Or.inl h)

/-- Witness of `Store_oversized`: five frames do not fit the four frames of `fourState`. -/
theorem Store_oversized_witness :
    5 > fourState.mCapacityFrames
    ∧ Store fourState [1, 2, 3, 4, 5, 6, 7, 8, 9, 10] 5 8 = some (false, fourState) :=
  ⟨by decide, Store_oversized fourState [1, 2, 3, 4, 5, 6, 7, 8, 9, 10] 5 8 (by decide)⟩

/-! ## C6: eviction -/

/-- Whatever `FrameOffset` returns lies inside the array. -/
theorem FrameOffset_lt (s : AudioRingBuffer) (f : Int) (off : Nat)
    (h : FrameOffset s f = some off) : off < s.mCapacityBytes := by
  unfold FrameOffset at h
  by_cases hc : s.mCapacityBytes = 0
  · rw [if_pos hc] at h
    exact absurd h (by simp)
  · rw [if_neg hc] at h
    have := Option.some.inj h
    rw [← this]
    exact Nat.mod_lt _ (Nat.pos_of_ne_zero hc)

/-- The frame at `startFrame` sits at `startOffset`. -/
theorem FrameOffset_startFrame (s : AudioRingBuffer) (hso : s.mStartOffset < s.mCapacityBytes)
    (hcap : s.mCapacityBytes ≤ 4294967296) :
    FrameOffset s s.mStartFrame = some s.mStartOffset := by
  rw [FrameOffset_of_fit s s.mStartFrame (by omega) (le_refl _) (by simp; omega)]
  simp only [sub_self, Int.toNat_zero, zero_mul, add_zero]
  rw [Nat.mod_eq_of_lt hso]

/-- C6, as stated, fails in its last part: on `fourState` (window `[4, 8)`, four frames of
capacity) a contiguous Store of two frames succeeds and moves the start to frame 6, and a
Fetch of one frame at that new `startFrame` still succeeds (it returns the bytes 16 and 17
stored there): the frame at the new `startFrame` is fetchable. -/
theorem Store_evicts_start_fetchable :
    Invariant fourState
    ∧ 2 ≤ fourState.mCapacityFrames
    ∧ fourState.mEndFrame + 2 - fourState.mStartFrame > fourState.mCapacityFrames
    ∧ ((Store fourState [1, 2, 3, 4] 2 fourState.mEndFrame).bind fun r =>
        (Fetch r.2 [0, 0] 1 r.2.mStartFrame).map fun q => (r.1, r.2.mStartFrame, q.1, q.2.1))
      = some (true, 6, true, [16, 17]) := by
  decide

/-- C6, amended: for every contiguous Store (`frameNumber = endFrame`,
`nFrames ≤ capacityFrames`) on a state satisfying the data-model invariants where
`endFrame + nFrames - startFrame > capacityFrames`, the Store succeeds and afterwards
`endFrame = frameNumber + nFrames`, `startFrame` has advanced by exactly
`old endFrame + nFrames - old startFrame - capacityFrames`, so that
`endFrame - startFrame = capacityFrames`, `startOffset` is the `FrameOffset` of the new
`startFrame` (in the state before and in the state after), and no Fetch starting before
the new `startFrame` succeeds, while the frame at the new `startFrame` is fetchable. -/
theorem Store_evicts (s : AudioRingBuffer) (data : List Byte) (n : Nat)
    (hinv : Invariant s) (hcf : n ≤ s.mCapacityFrames)
    (hover : s.mEndFrame + n - s.mStartFrame > s.mCapacityFrames) :
    ∃ t, Store s data n s.mEndFrame = some (true, t)
      ∧ t.mEndFrame = s.mEndFrame + n
      ∧ t.mStartFrame
          = s.mStartFrame + (s.mEndFrame + n - s.mStartFrame - s.mCapacityFrames)
      ∧ t.mEndFrame - t.mStartFrame = s.mCapacityFrames
      ∧ FrameOffset s t.mStartFrame = some t.mStartOffset
      ∧ FrameOffset t t.mStartFrame = some t.mStartOffset
      ∧ (∀ (out : List Byte) (m : Nat) (g : Int), g < t.mStartFrame →
          Fetch t out m g = some (false, out, t))
      ∧ ∀ out : List Byte, (Fetch t out 1 t.mStartFrame).map Prod.fst = some true := by
  have hc0 := hinv.capacityBytes_ne_zero
  obtain ⟨_, _, _, _, hcfpos, hcb, _, hse, hlen⟩ := hinv
  have hn : 0 < n := by omega
  have hw : resync s s.mEndFrame = s := by unfold resync; rw [if_pos rfl]
  obtain ⟨off, hoff⟩ : ∃ off, FrameOffset s s.mEndFrame = some off :=
    ⟨_, FrameOffset_eq_emod s _ hc0⟩
  obtain ⟨newOff, hnew⟩ : ∃ newOff,
      FrameOffset s (s.mEndFrame + n - s.mCapacityFrames) = some newOff :=
    ⟨_, FrameOffset_eq_emod s _ hc0⟩
  have hnewLt := FrameOffset_lt s _ _ hnew
  have hcapLt : s.mCapacityBytes < 4294967296 := by
    rw [hcb]; exact Nat.mod_lt _ (by decide)
  have hst := Store_evict s data n s.mEndFrame off newOff hn hcf (by rw [hw]; exact hoff)
    (by rw [hw]; exact hnew) (by rw [hw]; omega)
  rw [hw] at hst
  have hself : FrameOffset
      { s with
        mBuffer := writeWrapped s.mBuffer s.mCapacityBytes off (data.take (n * s.mBytesPerFrame))
        mStartOffset := newOff
        mStartFrame := s.mEndFrame + n - s.mCapacityFrames
        mEndFrame := s.mEndFrame + n }
      (s.mEndFrame + n - s.mCapacityFrames) = some newOff :=
    FrameOffset_startFrame _ hnewLt (le_of_lt hcapLt)
  refine ⟨_, hst, rfl, ?_, ?_, hnew, hself, ?_, ?_⟩
  · simp only; omega
  · simp only; omega
  · intro out m g hg
    exact Fetch_absent _ out m g (Or.inl hg)
  · intro out
    rw [Fetch_resident _ out 1 _ newOff (by simp only; omega) (by simp only; push_cast; omega)
      hself]
    rfl

/-- Witness of `Store_evicts`: two frames stored at the end of the full window of
`fourState`. -/
theorem Store_evicts_witness :
    Invariant fourState
    ∧ ∃ t, Store fourState [1, 2, 3, 4] 2 fourState.mEndFrame = some (true, t)
      ∧ t.mEndFrame = 10 ∧ t.mStartFrame = 6 :=
  ⟨by decide, by
    obtain ⟨t, h1, h2, h3, _⟩ :=
      Store_evicts fourState [1, 2, 3, 4] 2 (by decide) (by decide) (by decide)
    exact ⟨t, h1, h2, h3⟩⟩

/-! ## C7: wraparound on a buffer of four frames -/

theorem readBytes_writeBytes_sub (buf : Nat → Byte) (dst : Nat) (src : List Byte) (k m : Nat)
    (h : k + m ≤ src.length) :
    readBytes (writeBytes buf dst src) (dst + k) m = (src.drop k).take m := by
  apply List.ext_getElem
  · simp [length_readBytes]; omega
  · intro i h1 h2
    rw [getElem_readBytes]
    have hi : i < m := by simpa [length_readBytes] using h1
    unfold writeBytes
    rw [if_pos ⟨by omega, by omega⟩]
    have hk : dst + k + i - dst = k + i := by omega
    simp [List.getD_eq_getElem?_getD, hk]
    rw [List.getElem?_eq_getElem (by omega)]
    simp

/-- C7, as stated, fails: with `bytesPerFrame = 2^30` the capacity `4 * 2^30` does not fit
the `UInt32` field `mCapacityBytes`, which holds 0 after `Allocate`; the Store of frames
0-3 then divides by zero in `FrameOffset` and returns nothing. -/
theorem wraparound_four_overflows :
    0 < 1073741824
    ∧ (Allocate fourState (fun _ => 0) 1073741824 4).map (fun a => a.mCapacityBytes) = some 0
    ∧ ((Allocate fourState (fun _ => 0) 1073741824 4).bind fun a =>
        (Store a (List.replicate 4294967296 7) 4 0).map Prod.fst) = none := by
  decide

/-- C7, amended: for a freshly allocated buffer with `capacityFrames = 4` and any
`bytesPerFrame > 0` with `4 * bytesPerFrame < 2^32`, the Store of frames 0-3 followed by
the Store of frames 4-5 both succeed and leave `startFrame = 2` and `endFrame = 6`, and a
subsequent Fetch of 4 frames at frame 2 succeeds and returns the bytes stored for frames
2, 3 (the second half of the first Store) and 4, 5 (the second Store), in that order. -/
theorem wraparound_four (s : AudioRingBuffer) (mem : Nat → Byte) (b : Nat)
    (data1 data2 out : List Byte) (hb : 0 < b) (hfit : 4 * b < 4294967296)
    (h1 : data1.length = 4 * b) (h2 : data2.length = 2 * b) :
    ∃ a t1 t2, Allocate s mem b 4 = some a
      ∧ Store a data1 4 0 = some (true, t1)
      ∧ Store t1 data2 2 4 = some (true, t2)
      ∧ t2.mStartFrame = 2 ∧ t2.mEndFrame = 6
      ∧ Fetch t2 out 4 2
          = some (true, data1.drop (2 * b) ++ data2 ++ out.drop (4 * b), t2) := by
  have hA : Allocate s mem b 4 = some ⟨b, 4, 4 * b, mem, 0, 0, 0⟩ := by
    unfold Allocate Clear
    rw [if_neg (by omega)]
    simp only [UInt32Size, Nat.mod_eq_of_lt hfit]
  have hS1 : Store ⟨b, 4, 4 * b, mem, 0, 0, 0⟩ data1 4 0
      = some (true, ⟨b, 4, 4 * b, writeBytes mem 0 data1, 0, 0, 4⟩) := by
    have hr : resync ⟨b, 4, 4 * b, mem, 0, 0, 0⟩ 0 = ⟨b, 4, 4 * b, mem, 0, 0, 0⟩ := by
      unfold resync; rw [if_pos rfl]
    have hoff : FrameOffset ⟨b, 4, 4 * b, mem, 0, 0, 0⟩ 0 = some 0 :=
      FrameOffset_startFrame ⟨b, 4, 4 * b, mem, 0, 0, 0⟩ (by simp only; omega)
        (by simp only; omega)
    rw [Store_keep ⟨b, 4, 4 * b, mem, 0, 0, 0⟩ data1 4 0 0 (by omega) (le_refl _)
      (by rw [hr]; exact hoff) (by rw [hr]; simp)]
    rw [hr]
    simp only [← h1, List.take_length]
    unfold writeWrapped
    rw [if_pos (by omega)]
    rfl
  have hS2 : Store ⟨b, 4, 4 * b, writeBytes mem 0 data1, 0, 0, 4⟩ data2 2 4
      = some (true, ⟨b, 4, 4 * b, writeBytes (writeBytes mem 0 data1) 0 data2, 2 * b, 2, 6⟩) := by
    have hr : resync ⟨b, 4, 4 * b, writeBytes mem 0 data1, 0, 0, 4⟩ 4
        = ⟨b, 4, 4 * b, writeBytes mem 0 data1, 0, 0, 4⟩ := by
      unfold resync; rw [if_pos rfl]
    have hoff : FrameOffset ⟨b, 4, 4 * b, writeBytes mem 0 data1, 0, 0, 4⟩ 4 = some 0 := by
      have hd : ((4 : Int) - 0).toNat = 4 := by decide
      rw [FrameOffset_of_fit ⟨b, 4, 4 * b, writeBytes mem 0 data1, 0, 0, 4⟩ 4
        (by simp only; omega) (by simp only; omega) (by simp only [hd]; omega)]
      simp only [hd, Nat.zero_add, Nat.mod_self]
    have hnew : FrameOffset ⟨b, 4, 4 * b, writeBytes mem 0 data1, 0, 0, 4⟩ 2 = some (2 * b) := by
      have hd : ((2 : Int) - 0).toNat = 2 := by decide
      rw [FrameOffset_of_fit ⟨b, 4, 4 * b, writeBytes mem 0 data1, 0, 0, 4⟩ 2
        (by simp only; omega) (by simp only; omega) (by simp only [hd]; omega)]
      simp only [hd, Nat.zero_add]
      rw [Nat.mod_eq_of_lt (by omega)]
    rw [Store_evict ⟨b, 4, 4 * b, writeBytes mem 0 data1, 0, 0, 4⟩ data2 2 4 0 (2 * b)
      (by omega) (by simp only; omega) (by rw [hr]; exact hoff) (by rw [hr]; exact hnew)
      (by rw [hr]; simp only; decide)]
    rw [hr]
    simp only [← h2, List.take_length]
    unfold writeWrapped
    rw [if_pos (by omega)]
    rfl
  have hF : Fetch ⟨b, 4, 4 * b, writeBytes (writeBytes mem 0 data1) 0 data2, 2 * b, 2, 6⟩ out 4 2
      = some (true, data1.drop (2 * b) ++ data2 ++ out.drop (4 * b),
          ⟨b, 4, 4 * b, writeBytes (writeBytes mem 0 data1) 0 data2, 2 * b, 2, 6⟩) := by
    rw [Fetch_resident ⟨b, 4, 4 * b, writeBytes (writeBytes mem 0 data1) 0 data2, 2 * b, 2, 6⟩
      out 4 2 (2 * b) (le_refl _) (by simp only; decide)
      (FrameOffset_startFrame
        ⟨b, 4, 4 * b, writeBytes (writeBytes mem 0 data1) 0 data2, 2 * b, 2, 6⟩
        (by simp only; omega) (by simp only; omega))]
    simp only
    unfold readWrapped
    rw [if_neg (by omega)]
    have e1 : 4 * b - (4 * b - 2 * b) = 2 * b := by omega
    have e2 : 4 * b - 2 * b = 2 * b := by omega
    rw [e1, e2]
    rw [readBytes_writeBytes_apart _ 0 data2 (2 * b) (2 * b) (by omega)]
    have r1 := readBytes_writeBytes_sub mem 0 data1 (2 * b) (2 * b) (by omega)
    rw [Nat.zero_add, List.take_of_length_le (by rw [List.length_drop]; omega)] at r1
    have r2 := readBytes_writeBytes_same (writeBytes mem 0 data1) 0 data2
    rw [h2] at r2
    rw [r1, r2]
  exact ⟨_, _, _, hA, hS1, hS2, rfl, rfl, hF⟩

/-- Witness of `wraparound_four`: one-byte frames. -/
theorem wraparound_four_witness :
    ∃ a t1 t2, Allocate fourState (fun _ => 0) 1 4 = some a
      ∧ Store a [10, 11, 12, 13] 4 0 = some (true, t1)
      ∧ Store t1 [14, 15] 2 4 = some (true, t2)
      ∧ t2.mStartFrame = 2 ∧ t2.mEndFrame = 6
      ∧ Fetch t2 [0, 0, 0, 0] 4 2 = some (true, [12, 13, 14, 15], t2) :=
  wraparound_four fourState (fun _ => 0) 1 [10, 11, 12, 13] [14, 15] [0, 0, 0, 0]
    (by decide) (by decide) (by decide) (by decide)

/-! ## C8: Fetch is a pure read -/

/-- C8: for every state and every argument, whatever `Fetch` returns it returns the state
as it was (`startFrame`, `endFrame`, `startOffset` and the backing store included); when it
fails the caller's buffer is returned as it was; a successful Fetch repeated on the same
range, no Store intervening, succeeds again and delivers the same
`nFrames * bytesPerFrame` bytes, so that two caller buffers of that size end up identical;
and `Fetch` returns whenever `capacityBytes` is not zero. -/
theorem Fetch_pure_read (s : AudioRingBuffer) (data : List Byte) (n : Nat) (F : Int) :
    (∀ ok out t, Fetch s data n F = some (ok, out, t) → t = s)
    ∧ (∀ out t, Fetch s data n F = some (false, out, t) → out = data)
    ∧ (∀ out t, Fetch s data n F = some (true, out, t) →
        ∀ data2 : List Byte, ∃ out2, Fetch t data2 n F = some (true, out2, t)
          ∧ out2.take (n * s.mBytesPerFrame) = out.take (n * s.mBytesPerFrame)
          ∧ (data.length = n * s.mBytesPerFrame → data2.length = n * s.mBytesPerFrame →
              out2 = out))
    ∧ (s.mCapacityBytes ≠ 0 → ∃ ok out, Fetch s data n F = some (ok, out, s)) := by
  by_cases hres : s.mStartFrame ≤ F ∧ F + n ≤ s.mEndFrame
  · by_cases hc : s.mCapacityBytes = 0
    · have hnone : Fetch s data n F = none := by
        unfold Fetch FrameOffset
        rw [if_pos hres, if_pos hc]
      rw [hnone]
      exact ⟨fun _ _ _ h => absurd h (by simp), fun _ _ h => absurd h (by simp),
        fun _ _ h => absurd h (by simp), fun h => absurd hc h⟩
    · have hoff := FrameOffset_eq_emod s F hc
      have hlen : ∀ off, (readWrapped s.mBuffer s.mCapacityBytes off
          (n * s.mBytesPerFrame)).length = n * s.mBytesPerFrame ∨ s.mCapacityBytes ≤ off := by
        intro off
        unfold readWrapped
        by_cases h : off + n * s.mBytesPerFrame ≤ s.mCapacityBytes
        · rw [if_pos h]; left; exact length_readBytes _ _ _
        · rw [if_neg h, List.length_append, length_readBytes, length_readBytes]; omega
      have hoffLt := FrameOffset_lt s F _ hoff
      have hl := (hlen ((((s.mStartOffset : Int) + (F - s.mStartFrame) * s.mBytesPerFrame)
          % 4294967296).toNat % s.mCapacityBytes)).resolve_right (by omega)
      have hF := fun d => Fetch_resident s d n F _ hres.1 hres.2 hoff
      rw [hF data]
      refine ⟨?_, ?_, ?_, fun _ => ⟨_, _, rfl⟩⟩
      · intro ok out t h
        simp only [Option.some.injEq, Prod.mk.injEq] at h
        exact h.2.2.symm
      · intro out t h
        simp at h
      · intro out t h data2
        simp only [Option.some.injEq, Prod.mk.injEq, true_and] at h
        obtain ⟨hout, ht⟩ := h
        subst ht
        subst hout
        refine ⟨_, hF data2, ?_, ?_⟩
        · rw [List.take_append_of_le_length (by omega), List.take_append_of_le_length (by omega)]
        · intro h1 h2
          rw [List.drop_of_length_le (by omega), List.drop_of_length_le (by omega)]
  · have hF := fun d => Fetch_absent s d n F (by omega)
    rw [hF data]
    refine ⟨?_, ?_, ?_, fun _ => ⟨_, _, rfl⟩⟩
    · intro ok out t h
      simp only [Option.some.injEq, Prod.mk.injEq] at h
      exact h.2.2.symm
    · intro out t h
      simp only [Option.some.injEq, Prod.mk.injEq, true_and] at h
      exact h.1.symm
    · intro out t h
      simp at h

/-- Witness of `Fetch_pure_read`: a Fetch on `fourState` returns, with `fourState` as the
state. -/
theorem Fetch_pure_read_witness :
    fourState.mCapacityBytes ≠ 0
    ∧ ∃ ok out, Fetch fourState [0, 0, 0, 0] 2 6 = some (ok, out, fourState) :=
  ⟨by decide, (Fetch_pure_read fourState [0, 0, 0, 0] 2 6).2.2.2 (by decide)⟩

/-! ## C9: the window invariants are preserved -/

theorem WindowInvariant_Clear (s : AudioRingBuffer) (h : WindowInvariant s) :
    WindowInvariant (Clear s) := by
  obtain ⟨h1, _, _⟩ := h
  unfold WindowInvariant Clear
  simp only
  omega

theorem WindowInvariant_Store (s : AudioRingBuffer) (data : List Byte) (n : Nat) (F : Int)
    (h : WindowInvariant s) :
    ∃ ok t, Store s data n F = some (ok, t) ∧ WindowInvariant t := by
  by_cases hbig : n > s.mCapacityFrames
  · exact ⟨false, s, Store_reject s data n F (Or.inl hbig), h⟩
  by_cases hzero : n = 0
  · exact ⟨false, s, Store_reject s data n F (Or.inr hzero), h⟩
  obtain ⟨hso, hse, hlen⟩ := h
  have hc : s.mCapacityBytes ≠ 0 := by omega
  obtain ⟨h1, h2, h3, h4, h5⟩ := resync_fields s F
  have hoff := FrameOffset_eq_emod (resync s F) F (by rw [h3]; exact hc)
  have hwin : (resync s F).mStartFrame ≤ F := by
    rcases resync_window s F with ⟨e, e1, _⟩ | ⟨_, e1, _⟩ <;> omega
  by_cases hover : (s.mCapacityFrames : Int) < F + n - (resync s F).mStartFrame
  · have hnew := FrameOffset_eq_emod (resync s F) (F + n - s.mCapacityFrames)
      (by rw [h3]; exact hc)
    have hlt := FrameOffset_lt _ _ _ hnew
    refine ⟨true, _, Store_evict s data n F _ _ (by omega) (by omega) hoff hnew hover, ?_⟩
    unfold WindowInvariant
    simp only [h2, h3] at hlt ⊢
    exact ⟨hlt, by omega, by omega⟩
  · refine ⟨true, _, Store_keep s data n F _ (by omega) (by omega) hoff (by omega), ?_⟩
    unfold WindowInvariant
    simp only [h2, h3, h5]
    exact ⟨hso, by omega, by omega⟩

theorem WindowInvariant_Fetch (s : AudioRingBuffer) (data : List Byte) (n : Nat) (F : Int)
    (h : WindowInvariant s) :
    ∃ ok out, Fetch s data n F = some (ok, out, s) :=
  Fetch_returns s data n F (by obtain ⟨hso, _, _⟩ := h; omega)

theorem WindowInvariant_step (s : AudioRingBuffer) (c : Call) (h : WindowInvariant s) :
    ∃ t, step s c = some t ∧ WindowInvariant t := by
  cases c with
  | clear => exact ⟨_, rfl, WindowInvariant_Clear s h⟩
  | store data n F =>
    obtain ⟨ok, t, hst, ht⟩ := WindowInvariant_Store s data n F h
    exact ⟨t, by simp [step, hst], ht⟩
  | fetch data n F =>
    obtain ⟨ok, out, hf⟩ := WindowInvariant_Fetch s data n F h
    exact ⟨s, by simp [step, hf], h⟩

theorem WindowInvariant_run (calls : List Call) :
    ∀ s : AudioRingBuffer, WindowInvariant s → ∃ t, run s calls = some t ∧ WindowInvariant t := by
  induction calls with
  | nil => intro s h; exact ⟨s, rfl, h⟩
  | cons c cs ih =>
    intro s h
    obtain ⟨u, hu, hwu⟩ := WindowInvariant_step s c h
    obtain ⟨t, ht, hwt⟩ := ih u hwu
    exact ⟨t, by simp [run, hu, ht], hwt⟩

/-- C9, as stated, fails: `Allocate` with `bytesPerFrame = 65536` and
`capacityFrames = 65536`, both positive, leaves `capacityBytes = 0` in the `UInt32` field
(the product is `2^32`), so that `startOffset < capacityBytes` does not hold in the state
right after `Allocate`, before any call. -/
theorem window_invariant_overflow :
    0 < 65536
    ∧ (Allocate fourState (fun _ => 0) 65536 65536).map
        (fun a => (a.mStartOffset, a.mCapacityBytes, decide (WindowInvariant a)))
      = some (0, 0, false)
    ∧ ((Allocate fourState (fun _ => 0) 65536 65536).bind fun a => run a []).map
        (fun t => decide (t.mStartOffset < t.mCapacityBytes)) = some false := by
  decide

/-- C9, amended: starting from `Allocate` with `bytesPerFrame > 0` and `capacityFrames > 0`
whose product is not zero as a 32-bit value (in particular when it is below `2^32`),
every sequence of Clear, Store and Fetch calls returns, and the state after it satisfies
`startOffset < capacityBytes`, `endFrame ≥ startFrame` and
`endFrame - startFrame ≤ capacityFrames`. -/
theorem window_invariant_preserved (s : AudioRingBuffer) (mem : Nat → Byte)
    (bytesPerFrame capacityFrames : Nat) (calls : List Call)
    (hb : 0 < bytesPerFrame) (hf : 0 < capacityFrames)
    (hcap : (capacityFrames * bytesPerFrame) % 4294967296 ≠ 0) :
    ∃ a t, Allocate s mem bytesPerFrame capacityFrames = some a
      ∧ run a calls = some t
      ∧ t.mStartOffset < t.mCapacityBytes
      ∧ t.mEndFrame ≥ t.mStartFrame
      ∧ t.mEndFrame - t.mStartFrame ≤ (t.mCapacityFrames : Int) := by
  have hA : Allocate s mem bytesPerFrame capacityFrames
      = some ⟨bytesPerFrame, capacityFrames, (capacityFrames * bytesPerFrame) % 4294967296,
          mem, 0, 0, 0⟩ := by
    unfold Allocate Clear
    rw [if_neg (by omega)]
    rfl
  have hW : WindowInvariant ⟨bytesPerFrame, capacityFrames,
      (capacityFrames * bytesPerFrame) % 4294967296, mem, 0, 0, 0⟩ := by
    unfold WindowInvariant
    simp only
    omega
  obtain ⟨t, ht, hwt⟩ := WindowInvariant_run calls _ hW
  exact ⟨_, t, hA, ht, hwt⟩

/-- Witness of `window_invariant_preserved`: a buffer of four two-byte frames after two
Stores, a Fetch, a Clear and a Store at a far frame. -/
theorem window_invariant_preserved_witness :
    ∃ a t, Allocate fourState (fun _ => 0) 2 4 = some a
      ∧ run a [Call.store [1, 2, 3, 4, 5, 6, 7, 8] 4 0, Call.store [9, 10, 11, 12] 2 4,
          Call.fetch [0, 0] 1 3, Call.clear, Call.store [13, 14] 1 100] = some t
      ∧ t.mStartOffset < t.mCapacityBytes
      ∧ t.mEndFrame ≥ t.mStartFrame
      ∧ t.mEndFrame - t.mStartFrame ≤ (t.mCapacityFrames : Int) :=
  window_invariant_preserved fourState (fun _ => 0) 2 4 _ (by decide) (by decide) (by decide)

/-! ## C10: discontinuity -/

/-- C10: on a buffer whose window ends at frame 10, a successful Store at frame 100 leaves
`startFrame = 100` and `endFrame = 100 + nFrames`, and afterwards every Fetch whose range
`[g, g + m)` holds a frame of 0-99 fails; such a Store does succeed whenever
`0 < nFrames ≤ capacityFrames` and `capacityBytes` is not zero. -/
theorem Store_discontinuity (s t : AudioRingBuffer) (data : List Byte) (n : Nat)
    (hend : s.mEndFrame = 10) (hst : Store s data n 100 = some (true, t)) :
    t.mStartFrame = 100 ∧ t.mEndFrame = 100 + n
    ∧ (∀ (out : List Byte) (m : Nat) (g x : Int), g ≤ x → x < g + m → 0 ≤ x → x ≤ 99 →
        Fetch t out m g = some (false, out, t))
    ∧ (∀ (d : List Byte) (k : Nat), 0 < k → k ≤ s.mCapacityFrames → s.mCapacityBytes ≠ 0 →
        ∃ u, Store s d k 100 = some (true, u)) := by
  have hw : (resync s 100).mStartFrame = 100 := by
    rcases resync_window s 100 with ⟨e, _, _⟩ | ⟨_, e1, _⟩
    · omega
    · exact e1
  obtain ⟨h1, h2, h3, h4, h5⟩ := resync_fields s 100
  have hsucc : ∀ (d : List Byte) (k : Nat), 0 < k → k ≤ s.mCapacityFrames →
      s.mCapacityBytes ≠ 0 → ∃ off, Store s d k 100 = some (true, { resync s 100 with
        mBuffer := writeWrapped s.mBuffer s.mCapacityBytes off (d.take (k * s.mBytesPerFrame))
        mEndFrame := 100 + k }) := by
    intro d k hk hkc hc
    exact ⟨_, Store_keep s d k 100 _ hk hkc
      (FrameOffset_eq_emod (resync s 100) 100 (by rw [h3]; exact hc)) (by rw [hw]; omega)⟩
  have hn : 0 < n ∧ n ≤ s.mCapacityFrames ∧ s.mCapacityBytes ≠ 0 := by
    unfold Store at hst
    by_cases hbig : n > s.mCapacityFrames
    · rw [if_pos hbig] at hst; simp at hst
    by_cases hzero : n = 0
    · rw [if_neg hbig, if_pos hzero] at hst; simp at hst
    refine ⟨by omega, by omega, fun hc => ?_⟩
    rw [if_neg hbig, if_neg hzero] at hst
    have hnone : FrameOffset (resync s 100) 100 = none := by
      unfold FrameOffset; rw [if_pos (by rw [h3]; exact hc)]
    simp [hnone] at hst
  obtain ⟨off, hs⟩ := hsucc data n hn.1 hn.2.1 hn.2.2
  rw [hs] at hst
  simp only [Option.some.injEq, Prod.mk.injEq, true_and] at hst
  subst hst
  refine ⟨hw, rfl, ?_, fun d k hk hkc hc => ?_⟩
  · intro out m g x hgx _ _ hx
    exact Fetch_absent _ out m g (Or.inl (by simp only [hw]; omega))
  · obtain ⟨o, ho⟩ := hsucc d k hk hkc hc
    exact ⟨_, ho⟩

/-- Witness of `Store_discontinuity`: `tenState`, whose window is `[7, 10)`, after a Store
of two frames at frame 100. -/
theorem Store_discontinuity_witness :
    tenState.mEndFrame = 10
    ∧ ∃ t, Store tenState [1, 2, 3, 4] 2 100 = some (true, t)
      ∧ t.mStartFrame = 100 ∧ t.mEndFrame = 102 :=
  ⟨rfl, by
    obtain ⟨t, ht⟩ : ∃ t, Store tenState [1, 2, 3, 4] 2 100 = some (true, t) := ⟨_, rfl⟩
    obtain ⟨h1, h2, _⟩ := Store_discontinuity tenState t [1, 2, 3, 4] 2 rfl ht
    exact ⟨t, ht, h1, h2⟩⟩

/-! ## C11: the window after Allocate and after Clear -/

/-- The zero-length case the spec leaves open: under the residency test applied to the
empty range, `Fetch` with `nFrames = 0` at frame 0 returns true right after `Allocate`
and right after `Clear`, the empty range lying inside the empty window `[0, 0)`. -/
theorem Fetch_after_Allocate_zero_length :
    ((Allocate fourState (fun _ => 0) 2 4).bind fun a =>
        (Fetch a [] 0 0).map fun r => (a.mStartFrame, a.mEndFrame, a.mStartOffset, r.1))
      = some (0, 0, 0, true)
    ∧ (Fetch (Clear fourState) [] 0 0).map Prod.fst = some true := by
  decide

/-- C12: in a state with `capacityBytes > 0`, for every frame `f` with
`0 ≤ f - startFrame < 2^32` and `startOffset + (f - startFrame) * bytesPerFrame < 2^32`
over the unbounded integers, `FrameOffset f` is exactly
`(startOffset + (f - startFrame) * bytesPerFrame) mod capacityBytes`; when
`startOffset < capacityBytes = capacityFrames * bytesPerFrame ≤ 2^31` this covers every
`f` of `[startFrame, startFrame + capacityFrames]`, and `FrameOffset startFrame` is
`startOffset`. -/
theorem FrameOffset_no_wrap (s : AudioRingBuffer) (hc : 0 < s.mCapacityBytes) :
    (∀ f : Int, 0 ≤ f - s.mStartFrame → f - s.mStartFrame < 4294967296 →
        s.mStartOffset + (f - s.mStartFrame).toNat * s.mBytesPerFrame < 4294967296 →
        FrameOffset s f
          = some ((s.mStartOffset + (f - s.mStartFrame).toNat * s.mBytesPerFrame)
              % s.mCapacityBytes))
    ∧ (s.mStartOffset < s.mCapacityBytes →
        s.mCapacityBytes = s.mCapacityFrames * s.mBytesPerFrame →
        s.mCapacityBytes ≤ 2147483648 →
        (∀ f : Int, s.mStartFrame ≤ f → f ≤ s.mStartFrame + s.mCapacityFrames →
          FrameOffset s f
            = some ((s.mStartOffset + (f - s.mStartFrame).toNat * s.mBytesPerFrame)
                % s.mCapacityBytes))
        ∧ FrameOffset s s.mStartFrame = some s.mStartOffset) := by
  refine ⟨fun f h0 _ hfit => FrameOffset_of_fit s f (by omega) (by omega) hfit,
    fun hso hcb hle => ⟨fun f hlo hhi => ?_, FrameOffset_startFrame s hso (by omega)⟩⟩
  refine FrameOffset_of_fit s f (by omega) hlo ?_
  have hd : (f - s.mStartFrame).toNat ≤ s.mCapacityFrames := by omega
  have hm := Nat.mul_le_mul_right s.mBytesPerFrame hd
  omega

/-- Witness of `FrameOffset_no_wrap`: frame 6 of `fourState` sits at byte 6 and its start
frame 4 at `startOffset = 2`. -/
theorem FrameOffset_no_wrap_witness :
    0 < fourState.mCapacityBytes
    ∧ FrameOffset fourState 6 = some 6 ∧ FrameOffset fourState 4 = some 2 :=
  ⟨by decide,
    (FrameOffset_no_wrap fourState (by decide)).1 6 (by decide) (by decide) (by decide),
    ((FrameOffset_no_wrap fourState (by decide)).2 (by decide) (by decide) (by decide)).2⟩

/-! ## C13: resident frames do not alias -/

/-- With an aligned start and an exact capacity, the offset of the frame `d` frames above
the start is the frame slot `(startOffset / bytesPerFrame + d) mod capacityFrames`. -/
theorem slot_offset (k d cf b : Nat) :
    (k * b + d * b) % (cf * b) = ((k + d) % cf) * b := by
  rw [← Nat.add_mul, Nat.mul_mod_mul_right]

/-- C13: in a state with `bytesPerFrame > 0`,
`capacityBytes = capacityFrames * bytesPerFrame ≤ 2^31` and `startOffset < capacityBytes`,
two distinct frames `f ≠ g` of `[startFrame, startFrame + capacityFrames)` have distinct
offsets; when `startOffset` is a multiple of `bytesPerFrame` the offsets differ by at
least `bytesPerFrame`, so the byte ranges of the two frames are disjoint. -/
theorem FrameOffset_no_alias (s : AudioRingBuffer) (f g : Int)
    (hb : 0 < s.mBytesPerFrame)
    (hcb : s.mCapacityBytes = s.mCapacityFrames * s.mBytesPerFrame)
    (hle : s.mCapacityBytes ≤ 2147483648) (hso : s.mStartOffset < s.mCapacityBytes)
    (hf : s.mStartFrame ≤ f ∧ f < s.mStartFrame + s.mCapacityFrames)
    (hg : s.mStartFrame ≤ g ∧ g < s.mStartFrame + s.mCapacityFrames) (hne : f ≠ g) :
    FrameOffset s f ≠ FrameOffset s g
    ∧ (s.mBytesPerFrame ∣ s.mStartOffset →
        ∃ a c, FrameOffset s f = some a ∧ FrameOffset s g = some c
          ∧ (a + s.mBytesPerFrame ≤ c ∨ c + s.mBytesPerFrame ≤ a)) := by
  have hdf : (f - s.mStartFrame).toNat < s.mCapacityFrames := by omega
  have hdg : (g - s.mStartFrame).toNat < s.mCapacityFrames := by omega
  have hdne : (f - s.mStartFrame).toNat ≠ (g - s.mStartFrame).toNat := by omega
  have hmf := Nat.mul_le_mul_right s.mBytesPerFrame (Nat.le_of_lt hdf)
  have hmg := Nat.mul_le_mul_right s.mBytesPerFrame (Nat.le_of_lt hdg)
  have hF := FrameOffset_of_fit s f (by omega) hf.1 (by omega)
  have hG := FrameOffset_of_fit s g (by omega) hg.1 (by omega)
  generalize (f - s.mStartFrame).toNat = df at *
  generalize (g - s.mStartFrame).toNat = dg at *
  have hdist : (s.mStartOffset + df * s.mBytesPerFrame) % s.mCapacityBytes
      ≠ (s.mStartOffset + dg * s.mBytesPerFrame) % s.mCapacityBytes := by
    intro heq
    have h1 : df * s.mBytesPerFrame ≡ dg * s.mBytesPerFrame
        [MOD s.mCapacityFrames * s.mBytesPerFrame] := by
      rw [hcb] at heq
      exact Nat.ModEq.add_left_cancel' s.mStartOffset heq
    have h2 : df ≡ dg [MOD s.mCapacityFrames] :=
      Nat.ModEq.mul_right_cancel' (by omega) h1
    exact hdne (Nat.ModEq.eq_of_lt_of_lt h2 hdf hdg)
  refine ⟨by rw [hF, hG]; exact fun h => hdist (Option.some.inj h), fun hal => ?_⟩
  refine ⟨_, _, hF, hG, ?_⟩
  obtain ⟨k, hk⟩ := hal
  have ef := slot_offset k df s.mCapacityFrames s.mBytesPerFrame
  have eg := slot_offset k dg s.mCapacityFrames s.mBytesPerFrame
  rw [Nat.mul_comm k] at ef eg
  rw [← hk, ← hcb] at ef eg
  rw [ef, eg] at hdist ⊢
  have hslot : (k + df) % s.mCapacityFrames ≠ (k + dg) % s.mCapacityFrames :=
    fun h => hdist (by rw [h])
  rcases Nat.lt_or_gt_of_ne hslot with h | h
  · left
    have := Nat.mul_le_mul_right s.mBytesPerFrame (Nat.succ_le_of_lt h)
    rw [Nat.succ_mul] at this
    exact this
  · right
    have := Nat.mul_le_mul_right s.mBytesPerFrame (Nat.succ_le_of_lt h)
    rw [Nat.succ_mul] at this
    exact this

/-- Witness of `FrameOffset_no_alias`: frames 4 and 7 of `fourState` sit at bytes 2 and 0. -/
theorem FrameOffset_no_alias_witness :
    FrameOffset fourState 4 ≠ FrameOffset fourState 7
    ∧ (fourState.mBytesPerFrame ∣ fourState.mStartOffset →
        ∃ a c, FrameOffset fourState 4 = some a ∧ FrameOffset fourState 7 = some c
          ∧ (a + fourState.mBytesPerFrame ≤ c ∨ c + fourState.mBytesPerFrame ≤ a)) :=
  FrameOffset_no_alias fourState 4 7 (by decide) (by decide) (by decide) (by decide)
    (by decide) (by decide) (by decide)

/-! ## C14: re-basing the window preserves addresses -/

/-- C14: in a state with `capacityBytes > 0` and `startOffset < capacityBytes`, for frames
`s'` and `f` with `startFrame ≤ s' ≤ f` and
`startOffset + (f - startFrame) * bytesPerFrame < 2^32`, `FrameOffset s'` returns an
offset, and in the state whose start has advanced to `s'` with that offset as
`startOffset` (the eviction step) `FrameOffset f` is what it was in the old state. -/
theorem FrameOffset_rebase (s : AudioRingBuffer) (s' f : Int)
    (hc : 0 < s.mCapacityBytes) (hso : s.mStartOffset < s.mCapacityBytes)
    (h1 : s.mStartFrame ≤ s') (h2 : s' ≤ f)
    (hfit : s.mStartOffset + (f - s.mStartFrame).toNat * s.mBytesPerFrame < 4294967296) :
    ∃ newOffset, FrameOffset s s' = some newOffset
      ∧ FrameOffset { s with mStartOffset := newOffset, mStartFrame := s' } f
          = FrameOffset s f := by
  have hsplit : (s' - s.mStartFrame).toNat + (f - s').toNat = (f - s.mStartFrame).toNat := by
    omega
  have hmul : (s' - s.mStartFrame).toNat * s.mBytesPerFrame + (f - s').toNat * s.mBytesPerFrame
      = (f - s.mStartFrame).toNat * s.mBytesPerFrame := by
    rw [← Nat.add_mul, hsplit]
  have hnew := FrameOffset_of_fit s s' (by omega) h1 (by omega)
  have hmodle := Nat.mod_le (s.mStartOffset + (s' - s.mStartFrame).toNat * s.mBytesPerFrame)
    s.mCapacityBytes
  refine ⟨_, hnew, ?_⟩
  rw [FrameOffset_of_fit s f (by omega) (by omega) hfit]
  rw [FrameOffset_of_fit _ f (by simp only; omega) (by simp only; omega)
    (by simp only; omega)]
  simp only
  rw [Nat.mod_add_mod, Nat.add_assoc, hmul]

/-- Witness of `FrameOffset_rebase`: `fourState` re-based from frame 4 to frame 6; frame 7
stays at byte 0. -/
theorem FrameOffset_rebase_witness :
    ∃ newOffset, FrameOffset fourState 6 = some newOffset
      ∧ FrameOffset { fourState with mStartOffset := newOffset, mStartFrame := 6 } 7
          = FrameOffset fourState 7 :=
  FrameOffset_rebase fourState 6 7 (by decide) (by decide) (by decide) (by decide) (by decide)

/-! ## C15: frames are aligned and do not straddle the physical end -/

/-- C15: in a state with `bytesPerFrame > 0`,
`capacityBytes = capacityFrames * bytesPerFrame ≤ 2^31`, `startOffset < capacityBytes` and
`startOffset` a multiple of `bytesPerFrame`, for every `f` of
`[startFrame, startFrame + capacityFrames]` the offset `FrameOffset f` is a multiple of
`bytesPerFrame` with `FrameOffset f + bytesPerFrame ≤ capacityBytes`, and for
`f < startFrame + capacityFrames` the next frame sits at
`(FrameOffset f + bytesPerFrame) mod capacityBytes`. -/
theorem FrameOffset_aligned (s : AudioRingBuffer) (f : Int)
    (hb : 0 < s.mBytesPerFrame)
    (hcb : s.mCapacityBytes = s.mCapacityFrames * s.mBytesPerFrame)
    (hle : s.mCapacityBytes ≤ 2147483648) (hso : s.mStartOffset < s.mCapacityBytes)
    (hal : s.mBytesPerFrame ∣ s.mStartOffset)
    (hlo : s.mStartFrame ≤ f) (hhi : f ≤ s.mStartFrame + s.mCapacityFrames) :
    ∃ off, FrameOffset s f = some off
      ∧ s.mBytesPerFrame ∣ off
      ∧ off + s.mBytesPerFrame ≤ s.mCapacityBytes
      ∧ (f < s.mStartFrame + s.mCapacityFrames →
          FrameOffset s (f + 1) = some ((off + s.mBytesPerFrame) % s.mCapacityBytes)) := by
  have hd : (f - s.mStartFrame).toNat ≤ s.mCapacityFrames := by omega
  have hm := Nat.mul_le_mul_right s.mBytesPerFrame hd
  have hF := FrameOffset_of_fit s f (by omega) hlo (by omega)
  have hcf : 0 < s.mCapacityFrames := by
    rcases Nat.eq_zero_or_pos s.mCapacityFrames with h | h
    · rw [h, Nat.zero_mul] at hcb; omega
    · exact h
  refine ⟨_, hF, ?_, ?_, fun hlt => ?_⟩
  · obtain ⟨k, hk⟩ := hal
    have e := slot_offset k (f - s.mStartFrame).toNat s.mCapacityFrames s.mBytesPerFrame
    rw [Nat.mul_comm k, ← hk, ← hcb] at e
    rw [e]
    exact Dvd.intro_left _ rfl
  · obtain ⟨k, hk⟩ := hal
    have e := slot_offset k (f - s.mStartFrame).toNat s.mCapacityFrames s.mBytesPerFrame
    rw [Nat.mul_comm k, ← hk, ← hcb] at e
    rw [e, hcb]
    have hlt : (k + (f - s.mStartFrame).toNat) % s.mCapacityFrames < s.mCapacityFrames :=
      Nat.mod_lt _ hcf
    have := Nat.mul_le_mul_right s.mBytesPerFrame (Nat.succ_le_of_lt hlt)
    rw [Nat.succ_mul] at this
    exact this
  · have hd1 : (f + 1 - s.mStartFrame).toNat = (f - s.mStartFrame).toNat + 1 := by omega
    have hd2 : (f - s.mStartFrame).toNat + 1 ≤ s.mCapacityFrames := by omega
    have hm2 := Nat.mul_le_mul_right s.mBytesPerFrame hd2
    rw [Nat.add_mul, Nat.one_mul] at hm2
    rw [FrameOffset_of_fit s (f + 1) (by omega) (by omega) (by rw [hd1, Nat.add_mul]; omega)]
    rw [hd1, Nat.add_mul, Nat.one_mul, Nat.mod_add_mod, Nat.add_assoc]

/-- Witness of `FrameOffset_aligned`: frame 6 of `fourState` sits at byte 6, the last
two-byte slot of the 8-byte array, and frame 7 at byte 0. -/
theorem FrameOffset_aligned_witness :
    ∃ off, FrameOffset fourState 6 = some off
      ∧ fourState.mBytesPerFrame ∣ off
      ∧ off + fourState.mBytesPerFrame ≤ fourState.mCapacityBytes
      ∧ ((6 : Int) < fourState.mStartFrame + fourState.mCapacityFrames →
          FrameOffset fourState (6 + 1)
            = some ((off + fourState.mBytesPerFrame) % fourState.mCapacityBytes)) :=
  FrameOffset_aligned fourState 6 (by decide) (by decide) (by decide) (by decide) (by decide)
    (by decide) (by decide)

/-! ## C16: FrameOffset stays in bounds -/

/-- C16: in a state with `capacityBytes > 0`, for every frame number, inside or outside
the window and whatever wraps in the 32-bit arithmetic, `FrameOffset` returns an offset
below `capacityBytes`; the modulus is taken with divisor zero, and `FrameOffset` returns
nothing, exactly when `capacityBytes = 0`. -/
theorem FrameOffset_in_bounds (s : AudioRingBuffer) (f : Int) :
    (0 < s.mCapacityBytes → ∃ off, FrameOffset s f = some off ∧ off < s.mCapacityBytes)
    ∧ (FrameOffset s f = none ↔ s.mCapacityBytes = 0) := by
  refine ⟨fun hc => ?_, ?_⟩
  · have h := FrameOffset_eq_emod s f (by omega)
    exact ⟨_, h, FrameOffset_lt s f _ h⟩
  · unfold FrameOffset
    by_cases hc : s.mCapacityBytes = 0
    · rw [if_pos hc]; simp [hc]
    · rw [if_neg hc]; simp [hc]

/-- Witness of `FrameOffset_in_bounds`: a frame far below the window of `threeState`, whose
capacity of 3 bytes is not a power of two. -/
theorem FrameOffset_in_bounds_witness :
    0 < threeState.mCapacityBytes
    ∧ ∃ off, FrameOffset threeState (-1000000000000) = some off
      ∧ off < threeState.mCapacityBytes :=
  ⟨by decide, (FrameOffset_in_bounds threeState (-1000000000000)).1 (by decide)⟩

/-! ## C17: capacities that divide 2^32 -/

/-- C17: in a state whose `capacityBytes` divides `2^32`, for every frame number `f`,
above or below `startFrame`, `FrameOffset f` is the non-negative remainder of the
unbounded signed integer `startOffset + (f - startFrame) * bytesPerFrame` modulo
`capacityBytes`. -/
theorem FrameOffset_power_of_two (s : AudioRingBuffer) (f : Int)
    (hdvd : s.mCapacityBytes ∣ 4294967296) :
    FrameOffset s f
      = some ((((s.mStartOffset : Int) + (f - s.mStartFrame) * (s.mBytesPerFrame : Int))
          % (s.mCapacityBytes : Int)).toNat) := by
  have hc0 : s.mCapacityBytes ≠ 0 := by
    intro h
    rw [h] at hdvd
    exact absurd (Nat.eq_zero_of_zero_dvd hdvd) (by decide)
  have hcpos : (0 : Int) < (s.mCapacityBytes : Int) := by omega
  rw [FrameOffset_eq_emod s f hc0]
  congr 1
  apply Int.ofNat_inj.mp
  rw [Int.toNat_of_nonneg (Int.emod_nonneg _ (by omega))]
  push_cast
  rw [Int.toNat_of_nonneg (Int.emod_nonneg _ (by decide))]
  exact Int.emod_emod_of_dvd _ (by exact_mod_cast hdvd)

/-- Witness of `FrameOffset_power_of_two`: frame 1 of `fourState`, three frames below its
window, sits at byte 4 of the 8-byte array. -/
theorem FrameOffset_power_of_two_witness :
    fourState.mCapacityBytes ∣ 4294967296 ∧ FrameOffset fourState 1 = some 4 :=
  ⟨by decide, FrameOffset_power_of_two fourState 1 (by decide)⟩

end AudioRingBuffer
